import Mathlib

/-!
Verification of the angle-crossing search and scoring engine of
`src/app.py` (Vibration Lab).

Modelling conventions:
* Times are rational numbers of minutes; Python float arithmetic is
  idealised as exact rational arithmetic.
* Python `x % 360.0` (remainder with the sign of the positive divisor) is
  `x - 360 * ⌊x / 360⌋`.
* The ascendant / Moon-longitude signals computed through the ephemeris
  library are abstracted as an arbitrary function `f : ℚ → ℚ` from time to
  degrees; an ephemeris call that raises is modelled as `Option.none`.
* Python loops with early exit are modelled by structural recursion on an
  explicit iteration count that equals the number of iterations the
  `while` loop performs (for positive step sizes).
-/

namespace VibrationLab

attribute [local semireducible] Rat.mul Rat.inv Rat.add Rat.sub

/-- the function `wrap_deg` of `src/app.py`: `x % 360.0`. -/
def wrap_deg (x : ℚ) : ℚ := x - 360 * ⌊x / 360⌋

/-- the local helper `wrapdiff` shared by `ascendant_hit_times` and
`moon_trigger_time` in `src/app.py`: `((a - b + 180) % 360) - 180`. -/
def wrapdiff (a b : ℚ) : ℚ := wrap_deg (a - b + 180) - 180

/-- the bisection refinement loop (`for _ in range(12)`) shared verbatim by
`ascendant_hit_times` and `moon_trigger_time` in `src/app.py`: it keeps
halving the bracket `[a, b]`, returning the first midpoint whose absolute
wrap-aware difference from the target is within tolerance, and `none` when
the iteration budget runs out without the tolerance check firing. -/
def bisect (f : ℚ → ℚ) (target tol : ℚ) : ℚ → ℚ → ℕ → Option ℚ
  | _, _, 0 => none
  | a, b, n + 1 =>
    let m := a + (b - a) / 2
    let dm := wrapdiff (f m) target
    if |dm| ≤ tol then some m
    else
      let da := wrapdiff (f a) target
      if da * dm ≤ 0 then bisect f target tol a m n
      else bisect f target tol m b n

/-- the body of the `while t <= end_utc` scan loop of `ascendant_hit_times`
in `src/app.py`, by recursion on the number of loop iterations: at each
iteration the signal is sampled one `step` ahead, a sign change (or zero)
of the wrap-aware difference brackets a crossing which is refined by
`bisect`, and the refined midpoint, when the tolerance check fired, is
appended to the hit list. -/
def scanLoop (f : ℚ → ℚ) (target tol step : ℚ) : ℚ → ℚ → ℕ → List ℚ
  | _, _, 0 => []
  | t, prev, n + 1 =>
    let t2 := t + step
    let cur := wrapdiff (f t2) target
    (if prev * cur ≤ 0 then (bisect f target tol t t2 12).toList else []) ++
      scanLoop f target tol step t2 cur n

/-- the number of iterations the `while t <= end_utc` loop of
`ascendant_hit_times` performs when the step is positive: `t` visits
`start + k * step` for `k = 0, …, ⌊(end - start) / step⌋`, and the loop
does not run at all when `start > end`. -/
def numSteps (startT endT step : ℚ) : ℕ :=
  if startT ≤ endT then (⌊(endT - startT) / step⌋).toNat + 1 else 0

/-- the function `ascendant_hit_times` of `src/app.py`, with the ascendant
signal `asc(tu) = ascendant_deg(tu, lat, lon_east, flags)` abstracted as
`f`. -/
def ascendant_hit_times (f : ℚ → ℚ) (startT endT target tol step : ℚ) : List ℚ :=
  scanLoop f target tol step startT (wrapdiff (f startT) target) (numSteps startT endT step)

/-- the bracket refinement of `moon_trigger_time` in `src/app.py`: the
twelve-round bisection returns `(m, True)` as soon as a midpoint is within
tolerance, and falls through to `return (t, abs(d) <= tol_deg)` when the
budget runs out (`t` is the right endpoint of the bracket and `d` the
wrap-aware difference of the Moon signal there). -/
def moonRefine (f : ℚ → ℚ) (target tol a b t d : ℚ) : Option ℚ × Bool :=
  match bisect f target tol a b 12 with
  | some m => (some m, true)
  | none => (some t, decide (|d| ≤ tol))

/-- the `while t <= end` loop of `moon_trigger_time` in `src/app.py`, by
recursion on the number of remaining iterations: a sign change (or zero)
between consecutive samples triggers `moonRefine` and returns immediately;
when the loop runs out, the fallback soft check at the center time runs:
`return (center_utc if d0 <= tol_deg else None, d0 <= tol_deg)`. -/
def moonLoop (f : ℚ → ℚ) (target tol step center : ℚ) : ℚ → ℚ → ℕ → Option ℚ × Bool
  | _, _, 0 =>
    let d0 := |wrapdiff (f center) target|
    (if d0 ≤ tol then some center else none, decide (d0 ≤ tol))
  | prev_t, prev_d, n + 1 =>
    let t := prev_t + step
    let d := wrapdiff (f t) target
    if prev_d * d ≤ 0 then moonRefine f target tol prev_t t t d
    else moonLoop f target tol step center t d n

/-- the function `moon_trigger_time` of `src/app.py`, with the Moon
longitude signal `moonlon` abstracted as `f`; it searches
`[center - search_min, center + search_min]` in steps of `step` and
returns the pair `(trigger_time or None, within_tol)`. -/
def moon_trigger_time (f : ℚ → ℚ) (center target search_min step tol : ℚ) :
    Option ℚ × Bool :=
  let startT := center - search_min
  let endT := center + search_min
  moonLoop f target tol step center startT (wrapdiff (f startT) target)
    (⌊(endT - startT) / step⌋).toNat

/-- the score accumulation of the ladder loop in `src/app.py`
(lines 376–383): `score = 0; score += 2*w; if moon_ok: score += w;
score += max(0, 6 - int(bars // 50)); …; if label.startswith("θ"):
score += 1`.  `is_theta` is the `label.startswith("θ")` test. -/
def ladder_score (w : ℤ) (moon_ok : Bool) (is_theta : Bool) (bars : ℕ) : ℤ :=
  let s1 := 0 + 2 * w
  let s2 := if moon_ok then s1 + w else s1
  let s3 := s2 + max 0 (6 - ((bars / 50 : ℕ) : ℤ))
  if is_theta then s3 + 1 else s3

/-- one entry of `ladder_rows` in `src/app.py`:
`(score, local_time, label, deg, bars_from_anchor, moon_time_local, flags_str)`;
only the first two fields enter the sort key, the textual fields are
dropped from the model. -/
structure Row where
  score : ℤ
  time : ℚ
  deg : ℚ
  bars : ℕ
  moon_time : Option ℚ

/-- the Python sort key of line 395, `key=lambda r: (-r[0], r[1])`, as the
Boolean lexicographic comparison used for sorting. -/
def ladderKeyLe (r s : Row) : Bool :=
  decide (-r.score < -s.score ∨ (-r.score = -s.score ∧ r.time ≤ s.time))

/-- the intended total order on rows: score descending, ties broken by
earliest time. -/
def ladderOrder (r s : Row) : Prop :=
  s.score < r.score ∨ (r.score = s.score ∧ r.time ≤ s.time)

/-- `ladder_rows.sort(key=lambda r: (-r[0], r[1]))` (line 395). -/
def sort_ladder (rows : List Row) : List Row :=
  rows.mergeSort ladderKeyLe

/-- the displayed ladder, `ladder_rows[:8]` (line 400). -/
def ladder_top8 (rows : List Row) : List Row :=
  (sort_ladder rows).take 8

/-- the "final unified prediction" pick, `ladder_rows[0]` after the sort
(line 407), `none` when the ladder is empty. -/
def ladder_final (rows : List Row) : Option Row :=
  (sort_ladder rows).head?

/-- the house systems tried in order by `ascendant_deg` in `src/app.py`:
`for sys in (b'P', b'K', b'E')` (Placidus, Koch, Equal). -/
inductive HouseSys where
  | P
  | K
  | E
deriving DecidableEq

/-- result type of `ascendant_deg`: the Python function always returns a
float, which is either a genuine angle or the `float("nan")` sentinel. -/
inductive AscResult where
  | val : ℚ → AscResult
  | nan : AscResult
deriving DecidableEq

/-- the function `ascendant_deg` of `src/app.py`, with the ephemeris calls
abstracted: `houses_ex sys` models `swe.houses_ex(jd, flags, lat, lon_east,
sys)` returning `ascmc[0]` (`none` = the call raised), and `houses_fb`
models the last-resort `swe.houses(jd, lat, lon_east, 'E')` fallback.  The
`for`/`try`/`continue` chain returns the first success wrapped into
`[0, 360)`; when every attempt fails it returns `float("nan")`. -/
def ascendant_deg (houses_ex : HouseSys → Option ℚ) (houses_fb : Option ℚ) : AscResult :=
  match [HouseSys.P, HouseSys.K, HouseSys.E].findSome? houses_ex with
  | some a => AscResult.val (wrap_deg a)
  | none =>
    match houses_fb with
    | some a => AscResult.val (wrap_deg a)
    | none => AscResult.nan

/-- the guardrail constant `MAX_SCAN_POINTS = 4000` of `src/app.py`. -/
def MAX_SCAN_POINTS : ℕ := 4000

/-- `n_points = 1 + total_minutes // int(step_min)` (line 437). -/
def n_points_requested (total_minutes step_min : ℕ) : ℕ :=
  1 + total_minutes / step_min

/-- lines 438–441 of `src/app.py`: when the requested count exceeds
`MAX_SCAN_POINTS` the app emits `st.warning(...)` (modelled by the Boolean
component) and clamps `n_points` to `MAX_SCAN_POINTS`; no exception is
raised. -/
def n_points_after_guard (total_minutes step_min : ℕ) : ℕ × Bool :=
  let n := n_points_requested total_minutes step_min
  if n > MAX_SCAN_POINTS then (MAX_SCAN_POINTS, true) else (n, false)

/-- line 442 of `src/app.py`: the sample instants the scan actually runs
on, `[start_scan + dt.timedelta(minutes=i*step_min) for i in
range(n_points)]` with the guarded `n_points`. -/
def scan_times (start_scan : ℚ) (total_minutes step_min : ℕ) : List ℚ :=
  (List.range (n_points_after_guard total_minutes step_min).1).map
    (fun (i : ℕ) => start_scan + (i : ℚ) * (step_min : ℚ))

/-- Python's built-in `round` (round half to even) idealised on ℚ,
returning an integer as `round` does on a single argument. -/
def pyround (x : ℚ) : ℤ :=
  let n := ⌊x⌋
  let r := x - (n : ℚ)
  if r < 1 / 2 then n
  else if 1 / 2 < r then n + 1
  else if n % 2 = 0 then n else n + 1

/-- the function `digital_root` of `src/app.py`:
`1 + ((n - 1) % 9) if n > 0 else 0`. -/
def digital_root (n : ℤ) : ℤ :=
  if 0 < n then 1 + (n - 1) % 9 else 0

/-- the nine planet names appearing as values of `PLANET_MAP` in
`src/app.py`. -/
inductive PlanetTag where
  | Sun
  | Moon
  | Jupiter
  | Rahu
  | Mercury
  | Venus
  | Ketu
  | Saturn
  | Mars
deriving DecidableEq

/-- the dict `PLANET_MAP` of `src/app.py`, keys 1–9; a missing key
(`none`) models a `KeyError`. -/
def PLANET_MAP (k : ℤ) : Option PlanetTag :=
  if k = 1 then some PlanetTag.Sun
  else if k = 2 then some PlanetTag.Moon
  else if k = 3 then some PlanetTag.Jupiter
  else if k = 4 then some PlanetTag.Rahu
  else if k = 5 then some PlanetTag.Mercury
  else if k = 6 then some PlanetTag.Venus
  else if k = 7 then some PlanetTag.Ketu
  else if k = 8 then some PlanetTag.Saturn
  else if k = 9 then some PlanetTag.Mars
  else none

/-- the function `numerology_planet` of `src/app.py`:
`PLANET_MAP[digital_root(int(round(abs(value))))]`. -/
def numerology_planet (value : ℚ) : Option PlanetTag :=
  PLANET_MAP (digital_root (pyround |value|))

/-! Supporting lemmas. -/

lemma wrap_deg_eq_fract (x : ℚ) : wrap_deg x = 360 * Int.fract (x / 360) := by
  unfold wrap_deg Int.fract
  ring

lemma wrap_deg_nonneg (x : ℚ) : 0 ≤ wrap_deg x := by
  rw [wrap_deg_eq_fract]
  have h := Int.fract_nonneg (x / 360)
  linarith

lemma wrap_deg_lt (x : ℚ) : wrap_deg x < 360 := by
  rw [wrap_deg_eq_fract]
  have h := Int.fract_lt_one (x / 360)
  linarith

lemma wrap_deg_add_int_mul (x : ℚ) (k : ℤ) : wrap_deg (x + 360 * k) = wrap_deg x := by
  unfold wrap_deg
  have hdiv : (x + 360 * (k : ℚ)) / 360 = x / 360 + (k : ℚ) := by ring
  rw [hdiv, Int.floor_add_int]
  push_cast
  ring

lemma bisect_some_tol (f : ℚ → ℚ) (target tol : ℚ) :
    ∀ (n : ℕ) (a b m : ℚ), bisect f target tol a b n = some m →
      |wrapdiff (f m) target| ≤ tol := by
  intro n
  induction n with
  | zero => intro a b m h; simp [bisect] at h
  | succ k ih =>
    intro a b m h
    rw [bisect] at h
    by_cases h1 : |wrapdiff (f (a + (b - a) / 2)) target| ≤ tol
    · simp only [h1, if_pos] at h
      cases h
      exact h1
    · simp only [h1, if_neg, if_false] at h
      by_cases h2 : wrapdiff (f a) target * wrapdiff (f (a + (b - a) / 2)) target ≤ 0
      · simp only [h2, if_pos] at h
        exact ih a (a + (b - a) / 2) m h
      · simp only [h2, if_neg, if_false] at h
        exact ih (a + (b - a) / 2) b m h

lemma bisect_some_mem (f : ℚ → ℚ) (target tol : ℚ) :
    ∀ (n : ℕ) (a b m : ℚ), a ≤ b → bisect f target tol a b n = some m →
      a ≤ m ∧ m ≤ b := by
  intro n
  induction n with
  | zero => intro a b m _ h; simp [bisect] at h
  | succ k ih =>
    intro a b m hab h
    rw [bisect] at h
    have hm1 : a ≤ a + (b - a) / 2 := by linarith
    have hm2 : a + (b - a) / 2 ≤ b := by linarith
    by_cases h1 : |wrapdiff (f (a + (b - a) / 2)) target| ≤ tol
    · simp only [h1, if_pos] at h
      cases h
      exact ⟨hm1, hm2⟩
    · simp only [h1, if_neg, if_false] at h
      by_cases h2 : wrapdiff (f a) target * wrapdiff (f (a + (b - a) / 2)) target ≤ 0
      · simp only [h2, if_pos] at h
        obtain ⟨ha, hb⟩ := ih a (a + (b - a) / 2) m hm1 h
        exact ⟨ha, le_trans hb hm2⟩
      · simp only [h2, if_neg, if_false] at h
        obtain ⟨ha, hb⟩ := ih (a + (b - a) / 2) b m hm2 h
        exact ⟨le_trans hm1 ha, hb⟩

lemma scanLoop_mem_tol (f : ℚ → ℚ) (target tol step : ℚ) :
    ∀ (n : ℕ) (t prev m : ℚ), m ∈ scanLoop f target tol step t prev n →
      |wrapdiff (f m) target| ≤ tol := by
  intro n
  induction n with
  | zero => intro t prev m h; simp [scanLoop] at h
  | succ k ih =>
    intro t prev m h
    rw [scanLoop, List.mem_append] at h
    rcases h with h | h
    · by_cases hc : prev * wrapdiff (f (t + step)) target ≤ 0
      · simp only [hc, if_pos, Option.mem_toList] at h
        exact bisect_some_tol f target tol 12 t (t + step) m h
      · simp only [hc, if_neg, if_false, List.not_mem_nil] at h
    · exact ih (t + step) (wrapdiff (f (t + step)) target) m h

lemma scanLoop_mem_bounds (f : ℚ → ℚ) (target tol step : ℚ) (hstep : 0 < step) :
    ∀ (n : ℕ) (t prev m : ℚ), m ∈ scanLoop f target tol step t prev n →
      t ≤ m ∧ m ≤ t + n * step := by
  intro n
  induction n with
  | zero => intro t prev m h; simp [scanLoop] at h
  | succ k ih =>
    intro t prev m h
    rw [scanLoop, List.mem_append] at h
    have hkn : (0 : ℚ) ≤ (k : ℚ) := by positivity
    rcases h with h | h
    · by_cases hc : prev * wrapdiff (f (t + step)) target ≤ 0
      · simp only [hc, if_pos, Option.mem_toList] at h
        obtain ⟨h1, h2⟩ := bisect_some_mem f target tol 12 t (t + step) m (by linarith) h
        refine ⟨h1, ?_⟩
        have : t + step ≤ t + (↑(k + 1)) * step := by
          push_cast
          nlinarith
        linarith
      · simp only [hc, if_neg, if_false, List.not_mem_nil] at h
    · obtain ⟨h1, h2⟩ := ih (t + step) (wrapdiff (f (t + step)) target) m h
      constructor
      · linarith
      · have : t + step + (k : ℚ) * step = t + (↑(k + 1)) * step := by push_cast; ring
        linarith

lemma scan_times_length (start_scan : ℚ) (total_minutes step_min : ℕ) :
    (scan_times start_scan total_minutes step_min).length =
      (n_points_after_guard total_minutes step_min).1 := by
  unfold scan_times
  rw [List.length_map, List.length_range]

lemma moonLoop_sound (f : ℚ → ℚ) (target tol step center : ℚ) :
    ∀ (n : ℕ) (prev_t prev_d : ℚ),
      (moonLoop f target tol step center prev_t prev_d n).2 = true →
      ∃ m, (moonLoop f target tol step center prev_t prev_d n).1 = some m ∧
        |wrapdiff (f m) target| ≤ tol := by
  intro n
  induction n with
  | zero =>
    intro prev_t prev_d h
    rw [moonLoop] at h ⊢
    have hd0 : |wrapdiff (f center) target| ≤ tol := of_decide_eq_true h
    exact ⟨center, by rw [if_pos hd0], hd0⟩
  | succ k ih =>
    intro prev_t prev_d h
    rw [moonLoop] at h ⊢
    by_cases hc : prev_d * wrapdiff (f (prev_t + step)) target ≤ 0
    · rw [if_pos hc] at h ⊢
      unfold moonRefine at h ⊢
      cases hb : bisect f target tol prev_t (prev_t + step) 12 with
      | some m =>
        exact ⟨m, rfl, bisect_some_tol f target tol 12 prev_t (prev_t + step) m hb⟩
      | none =>
        rw [hb] at h
        exact ⟨prev_t + step, rfl, of_decide_eq_true h⟩
    · rw [if_neg hc] at h ⊢
      exact ih (prev_t + step) (wrapdiff (f (prev_t + step)) target) h

/-! Claim theorems. -/

/-- C1.  Every timestamp returned by the crossing search
`ascendant_hit_times` satisfies the tolerance postcondition: for every
signal, start, end, target degree, tolerance and positive step, each
element `t` of the returned hit list has absolute wrap-aware difference
between the signal at `t` and the target degree at most `tol`.  (Hits are
appended only after the `abs(dm) <= tol_deg` check fires.) -/
theorem ascendant_hit_times_within_tol (f : ℚ → ℚ) (startT endT target tol step : ℚ)
    (_hstep : 0 < step) (t : ℚ)
    (ht : t ∈ ascendant_hit_times f startT endT target tol step) :
    |wrapdiff (f t) target| ≤ tol :=
  scanLoop_mem_tol f target tol step (numSteps startT endT step) startT
    (wrapdiff (f startT) target) t ht

/-- witness for C1: the constant-zero signal on the window `[0, 0]` with
target `0`, tolerance `1` and step `5` produces the hit `5/2`, and the
theorem instantiates there. -/
theorem ascendant_hit_times_within_tol_witness :
    (0 : ℚ) < 5 ∧ (5 / 2 : ℚ) ∈ ascendant_hit_times (fun _ => 0) 0 0 0 1 5 ∧
      |wrapdiff ((fun (_ : ℚ) => (0 : ℚ)) (5 / 2)) 0| ≤ 1 :=
  ⟨by norm_num, by decide,
    ascendant_hit_times_within_tol (fun _ => 0) 0 0 0 1 5 (by norm_num) (5 / 2) (by decide)⟩

/-- counterexample to C2 as stated: for the degenerate window
`start == end` the loop `while t <= end_utc` still executes one iteration,
samples one step past the window, and can record a hit.  With the
constant signal sitting exactly on the target, the scan over `[0, 0]`
with step `5` returns the nonempty hit list `[5/2]`. -/
theorem ascendant_hit_times_empty_window_cex :
    ascendant_hit_times (fun _ => 0) 0 0 0 1 5 = [5 / 2] ∧
      ascendant_hit_times (fun _ => 0) 0 0 0 1 5 ≠ [] := by
  constructor
  · decide
  · decide

/-- C2 (amended).  For a window with `start` strictly after `end` the
crossing search returns an empty sequence, for every signal, target
degree, tolerance and step; with `start == end` the loop still runs one
iteration and can return a hit, so only the `start > end` half of the
original claim holds. -/
theorem ascendant_hit_times_empty_of_reversed (f : ℚ → ℚ)
    (startT endT target tol step : ℚ) (h : endT < startT) :
    ascendant_hit_times f startT endT target tol step = [] := by
  unfold ascendant_hit_times numSteps
  rw [if_neg (not_le.mpr h)]
  rfl

/-- witness for C2 (amended): the reversed window `[1, 0]` yields no
hits. -/
theorem ascendant_hit_times_empty_of_reversed_witness :
    (0 : ℚ) < 1 ∧ ascendant_hit_times (fun _ => 0) 1 0 0 1 5 = [] :=
  ⟨by norm_num, ascendant_hit_times_empty_of_reversed (fun _ => 0) 1 0 0 1 5 (by norm_num)⟩

/-- counterexample to C3 as stated: a hit returned for the window `[0, 5]`
can lie strictly after the end of the window, because the last loop
iteration brackets the crossing in `[t, t + step]` with `t = end`.  With
the constant signal sitting on the target, the scan over `[0, 5]` with
step `5` returns the hit `15/2 > 5`. -/
theorem ascendant_hit_in_window_cex :
    (15 / 2 : ℚ) ∈ ascendant_hit_times (fun _ => 0) 0 5 0 1 5 ∧
      ¬ ((15 / 2 : ℚ) ≤ 5) := by
  constructor
  · decide
  · norm_num

/-- C3 (amended).  Candidate invariant, as the code actually guarantees
it: every hit returned by `ascendant_hit_times` for the window
`[start, end]` with positive step lies in `[start, end + step]` (the last
bracket may extend one step past the window, so `end` inclusive only
weakens to `end + step`), and every ladder score computed from a
nonnegative target weight is nonnegative. -/
theorem ascendant_hit_bounds_and_score_nonneg (f : ℚ → ℚ)
    (startT endT target tol step : ℚ) (hstep : 0 < step) (m : ℚ)
    (hm : m ∈ ascendant_hit_times f startT endT target tol step)
    (w : ℤ) (hw : 0 ≤ w) (moon_ok is_theta : Bool) (bars : ℕ) :
    (startT ≤ m ∧ m ≤ endT + step) ∧ 0 ≤ ladder_score w moon_ok is_theta bars := by
  constructor
  · unfold ascendant_hit_times at hm
    by_cases hse : startT ≤ endT
    · have hb := scanLoop_mem_bounds f target tol step hstep (numSteps startT endT step)
        startT (wrapdiff (f startT) target) m hm
      refine ⟨hb.1, le_trans hb.2 ?_⟩
      unfold numSteps
      rw [if_pos hse]
      have hq0 : (0 : ℚ) ≤ (endT - startT) / step :=
        div_nonneg (by linarith) (le_of_lt hstep)
      have hfl0 : (0 : ℤ) ≤ ⌊(endT - startT) / step⌋ := Int.floor_nonneg.mpr hq0
      have hc1 : ((⌊(endT - startT) / step⌋.toNat : ℕ) : ℚ) =
          ((⌊(endT - startT) / step⌋ : ℤ) : ℚ) := by
        exact_mod_cast congrArg (fun z : ℤ => (z : ℚ)) (Int.toNat_of_nonneg hfl0)
      have hfle : (⌊(endT - startT) / step⌋ : ℚ) ≤ (endT - startT) / step :=
        Int.floor_le _
      have hmul : ((⌊(endT - startT) / step⌋ : ℤ) : ℚ) * step ≤
          (endT - startT) / step * step :=
        mul_le_mul_of_nonneg_right hfle (le_of_lt hstep)
      have hcancel : (endT - startT) / step * step = endT - startT :=
        div_mul_cancel₀ _ (ne_of_gt hstep)
      push_cast [hc1]
      nlinarith
    · exfalso
      unfold numSteps at hm
      rw [if_neg hse] at hm
      simp [scanLoop] at hm
  · unfold ladder_score
    have hmax : (0 : ℤ) ≤ max 0 (6 - ((bars / 50 : ℕ) : ℤ)) := le_max_left _ _
    cases moon_ok <;> cases is_theta <;> simp <;> omega

/-- witness for C3 (amended): the hit `5/2` of the scan over `[0, 0]` with
step `5` lies in `[0, 0 + 5]`, and the ladder score of a weight-2 harmonic
target with Moon confirmation at bar 1 is nonnegative. -/
theorem ascendant_hit_bounds_and_score_nonneg_witness :
    ((0 : ℚ) < 5 ∧ (5 / 2 : ℚ) ∈ ascendant_hit_times (fun _ => 0) 0 0 0 1 5 ∧
        (0 : ℤ) ≤ 2) ∧
      (((0 : ℚ) ≤ 5 / 2 ∧ (5 / 2 : ℚ) ≤ 0 + 5) ∧ 0 ≤ ladder_score 2 true true 1) :=
  ⟨⟨by norm_num, by decide, by norm_num⟩,
    ascendant_hit_bounds_and_score_nonneg (fun _ => 0) 0 0 0 1 5 (by norm_num) (5 / 2)
      (by decide) 2 (by norm_num) true true 1⟩

/-- C4.  The ladder score is exactly
`2 * w + (w if moon confirmation) + max(0, 6 - bars // 50) + (1 if the
target is a harmonic θ-target else 0)`, for every weight, confirmation
flag, category and bar distance. -/
theorem ladder_score_formula (w : ℤ) (moon_ok is_theta : Bool) (bars : ℕ) :
    ladder_score w moon_ok is_theta bars =
      2 * w + (if moon_ok then w else 0) + max 0 (6 - ((bars / 50 : ℕ) : ℤ)) +
        (if is_theta then 1 else 0) := by
  cases moon_ok <;> cases is_theta <;>
    simp [ladder_score, add_assoc, add_comm, add_left_comm]

/-- C5.  The ranked ladder is totally ordered by score descending with
ties broken by earliest time: after the sort, every pair of candidates in
order satisfies "strictly greater score, or equal score and no later
time"; the sorted list is a permutation of the input candidates; the
displayed output is the top-8 prefix of that order; and the "final" pick
is its first element. -/
theorem sort_ladder_spec (rows : List Row) :
    (sort_ladder rows).Pairwise ladderOrder ∧
      (sort_ladder rows).Perm rows ∧
      ladder_top8 rows = (sort_ladder rows).take 8 ∧
      ladder_final rows = (sort_ladder rows).head? := by
  refine ⟨?_, List.mergeSort_perm rows ladderKeyLe, rfl, rfl⟩
  have htrans : ∀ a b c : Row, ladderKeyLe a b = true → ladderKeyLe b c = true →
      ladderKeyLe a c = true := by
    intro a b c hab hbc
    simp only [ladderKeyLe, decide_eq_true_eq] at *
    rcases hab with h1 | ⟨h1, h1'⟩ <;> rcases hbc with h2 | ⟨h2, h2'⟩
    · left; omega
    · left; omega
    · left; omega
    · right; exact ⟨by omega, le_trans h1' h2'⟩
  have htotal : ∀ a b : Row, (ladderKeyLe a b || ladderKeyLe b a) = true := by
    intro a b
    simp only [ladderKeyLe, Bool.or_eq_true, decide_eq_true_eq]
    rcases lt_trichotomy (-a.score) (-b.score) with h | h | h
    · left; left; exact h
    · rcases le_total a.time b.time with ht | ht
      · left; right; exact ⟨h, ht⟩
      · right; right; exact ⟨h.symm, ht⟩
    · right; left; exact h
  have hs := List.sorted_mergeSort htrans htotal rows
  refine hs.imp ?_
  intro a b hab
  simp only [ladderKeyLe, decide_eq_true_eq] at hab
  rcases hab with h | ⟨h1, h2⟩
  · left; omega
  · right; exact ⟨by omega, h2⟩

/-- counterexample to C6 as stated: the signed minimal difference computed
by `wrapdiff` is NOT always in `(-180, 180]`: at `a = 180, b = 0` (both in
`[0, 360)`) it evaluates to `-180`, which violates the claimed strict
lower bound.  The attained interval is `[-180, 180)`. -/
theorem wrapdiff_interval_cex :
    wrapdiff 180 0 = -180 ∧ ¬ (-180 < wrapdiff 180 0) := by
  constructor
  · decide
  · decide

/-- C6 (amended).  For all `a, b` in `[0, 360)` the signed minimal angular
difference `wrapdiff a b = ((a - b + 180) % 360) - 180` lies in the
half-open interval `[-180, 180)` (closed at `-180`, open at `180` — not
`(-180, 180]` as claimed), and the round-trip equation
`wrap_deg (b + wrapdiff a b) = wrap_deg a` holds. -/
theorem wrapdiff_range_and_roundtrip (a b : ℚ)
    (_ha0 : 0 ≤ a) (_ha1 : a < 360) (_hb0 : 0 ≤ b) (_hb1 : b < 360) :
    (-180 ≤ wrapdiff a b ∧ wrapdiff a b < 180) ∧
      wrap_deg (b + wrapdiff a b) = wrap_deg a := by
  constructor
  · constructor
    · have h := wrap_deg_nonneg (a - b + 180)
      unfold wrapdiff
      linarith
    · have h := wrap_deg_lt (a - b + 180)
      unfold wrapdiff
      linarith
  · have key : b + wrapdiff a b = a + 360 * ((-⌊(a - b + 180) / 360⌋ : ℤ) : ℚ) := by
      unfold wrapdiff wrap_deg
      push_cast
      ring
    rw [key, wrap_deg_add_int_mul]

/-- witness for C6 (amended): instantiated at `a = 90, b = 30`. -/
theorem wrapdiff_range_and_roundtrip_witness :
    ((0 : ℚ) ≤ 90 ∧ (90 : ℚ) < 360 ∧ (0 : ℚ) ≤ 30 ∧ (30 : ℚ) < 360) ∧
      ((-180 ≤ wrapdiff 90 30 ∧ wrapdiff 90 30 < 180) ∧
        wrap_deg (30 + wrapdiff 90 30) = wrap_deg 90) :=
  ⟨⟨by norm_num, by norm_num, by norm_num, by norm_num⟩,
    wrapdiff_range_and_roundtrip 90 30 (by norm_num) (by norm_num) (by norm_num)
      (by norm_num)⟩

/-- counterexample to C7 as stated: the app does not raise on an
over-large scan request — it truncates and runs.  A 30-day window at the
minimum 5-minute step requests `1 + 86400 // 5 = 17281 > 4000` samples;
the guard clamps `n_points` to `4000` (emitting only a warning, modelled
by the `true` flag) and the scan then runs on the truncated 4000-sample
set. -/
theorem n_points_truncation_cex :
    n_points_requested 86400 5 = 17281 ∧
      n_points_after_guard 86400 5 = (4000, true) ∧
      (scan_times 0 86400 5).length = 4000 := by
  refine ⟨by decide, by decide, ?_⟩
  rw [scan_times_length]
  decide

/-- C7 (amended).  Whenever the requested sample count exceeds
`MAX_SCAN_POINTS`, the guard clamps the count to `MAX_SCAN_POINTS`, sets
the warning flag, and the scan runs on exactly `MAX_SCAN_POINTS` samples;
no error is raised and the computation is not aborted. -/
theorem n_points_guard_truncates (total_minutes step_min : ℕ) (start_scan : ℚ)
    (h : MAX_SCAN_POINTS < n_points_requested total_minutes step_min) :
    n_points_after_guard total_minutes step_min = (MAX_SCAN_POINTS, true) ∧
      (scan_times start_scan total_minutes step_min).length = MAX_SCAN_POINTS := by
  have hg : n_points_after_guard total_minutes step_min = (MAX_SCAN_POINTS, true) := by
    simp only [n_points_after_guard]
    rw [if_pos h]
  refine ⟨hg, ?_⟩
  rw [scan_times_length, hg]

/-- witness for C7 (amended): instantiated at the 30-day / 5-minute
request of the counterexample. -/
theorem n_points_guard_truncates_witness :
    MAX_SCAN_POINTS < n_points_requested 86400 5 ∧
      (n_points_after_guard 86400 5 = (MAX_SCAN_POINTS, true) ∧
        (scan_times 0 86400 5).length = MAX_SCAN_POINTS) :=
  ⟨by decide, n_points_guard_truncates 86400 5 0 (by decide)⟩

/-- counterexample to C8 as stated: `ascendant_deg` does not propagate a
failing signal source.  When every house-system call raises (all
abstracted calls return `none`), it returns the `float("nan")` sentinel
instead of letting the error reach the caller; and when only the primary
Placidus call raises, the failure is silently replaced by the Koch
fallback value. -/
theorem ascendant_deg_propagation_cex :
    ascendant_deg (fun _ => none) none = AscResult.nan ∧
      ascendant_deg (fun s => if s = HouseSys.P then none else some 100) none =
        AscResult.val (wrap_deg 100) := by
  constructor
  · decide
  · decide

/-- C8 (amended).  `ascendant_deg` suppresses every failure of its signal
source: it walks the Placidus → Koch → Equal fallback chain and a final
`swe.houses` attempt, and when all of them fail it returns the NaN
sentinel to the caller rather than propagating the error. -/
theorem ascendant_deg_swallows_failures (houses_ex : HouseSys → Option ℚ)
    (houses_fb : Option ℚ)
    (h1 : houses_ex HouseSys.P = none) (h2 : houses_ex HouseSys.K = none)
    (h3 : houses_ex HouseSys.E = none) (h4 : houses_fb = none) :
    ascendant_deg houses_ex houses_fb = AscResult.nan := by
  simp [ascendant_deg, List.findSome?_cons, h1, h2, h3, h4]

/-- witness for C8 (amended): the everywhere-failing source. -/
theorem ascendant_deg_swallows_failures_witness :
    ascendant_deg (fun _ => none) none = AscResult.nan :=
  ascendant_deg_swallows_failures (fun _ => none) none rfl rfl rfl rfl

/-- C9.  Soundness of the Moon-confirmation flag: whenever
`moon_trigger_time` returns `within_tol = True`, the returned trigger
timestamp is non-`None` and the Moon signal at that timestamp is within
`tol` (wrap-aware) of the target degree.  The other half of the claim —
a `None` timestamp forces a `False` flag — is the contrapositive: were the
flag `true` with a `None` timestamp, this theorem would produce
`none = some m`. -/
theorem moon_trigger_time_sound (f : ℚ → ℚ) (center target search_min step tol : ℚ)
    (h : (moon_trigger_time f center target search_min step tol).2 = true) :
    ∃ m, (moon_trigger_time f center target search_min step tol).1 = some m ∧
      |wrapdiff (f m) target| ≤ tol := by
  unfold moon_trigger_time at h ⊢
  exact moonLoop_sound f target tol step center _ (center - search_min)
    (wrapdiff (f (center - search_min)) target) h

/-- witness for C9: the constant-zero Moon signal around center `0` with
target `0`, radius `90`, step `5` and tolerance `1` sets the flag, and the
theorem produces an in-tolerance trigger time there. -/
theorem moon_trigger_time_sound_witness :
    (moon_trigger_time (fun _ => 0) 0 0 90 5 1).2 = true ∧
      ∃ m, (moon_trigger_time (fun _ => 0) 0 0 90 5 1).1 = some m ∧
        |wrapdiff ((fun (_ : ℚ) => (0 : ℚ)) m) 0| ≤ 1 :=
  ⟨by decide, moon_trigger_time_sound (fun _ => 0) 0 0 90 5 1 (by decide)⟩

/-- C10.  The numerology interface: `numerology_planet` hits a `KeyError`
(modelled as `none`) exactly when the rounded absolute value is `0`
(which `digital_root` maps to `0`, not a key of `PLANET_MAP`); every
`|value| ≤ 0.5` rounds to `0` under Python's half-to-even rounding; and
when the absolute value rounds to a positive integer `n`, the result is
the (present) entry `PLANET_MAP[1 + ((n - 1) % 9)]`. -/
theorem numerology_planet_spec (v : ℚ) :
    (pyround |v| = 0 → numerology_planet v = none) ∧
      (|v| ≤ 1 / 2 → pyround |v| = 0) ∧
      (∀ n : ℤ, 0 < n → pyround |v| = n →
        numerology_planet v = PLANET_MAP (1 + (n - 1) % 9) ∧
          (PLANET_MAP (1 + (n - 1) % 9)).isSome = true) := by
  refine ⟨?_, ?_, ?_⟩
  · intro h
    simp [numerology_planet, h, digital_root, PLANET_MAP]
  · intro h
    have h0 : ⌊|v|⌋ = 0 := by
      rw [Int.floor_eq_zero_iff]
      exact ⟨abs_nonneg v, by norm_num at h ⊢; linarith⟩
    simp only [pyround, h0]
    push_cast
    by_cases hlt : |v| - 0 < 1 / 2
    · rw [if_pos hlt]
    · rw [if_neg hlt, if_neg (by norm_num at h ⊢; linarith)]
  · intro n hn h
    constructor
    · simp [numerology_planet, h, digital_root, if_pos hn]
    · have h1 : 0 ≤ (n - 1) % 9 := Int.emod_nonneg _ (by norm_num)
      have h2 : (n - 1) % 9 < 9 := Int.emod_lt_of_pos _ (by norm_num)
      unfold PLANET_MAP
      split_ifs <;> first | rfl | omega

/-- witness for C10: `numerology_planet 0` is a `KeyError` (`0` rounds to
`0`), and `numerology_planet 7` is the present entry for digit `7`. -/
theorem numerology_planet_spec_witness :
    numerology_planet 0 = none ∧
      (numerology_planet 7 = PLANET_MAP (1 + ((7 : ℤ) - 1) % 9) ∧
        (PLANET_MAP (1 + ((7 : ℤ) - 1) % 9)).isSome = true) :=
  ⟨(numerology_planet_spec 0).1 (by decide),
    (numerology_planet_spec 7).2.2 7 (by norm_num) (by decide)⟩

end VibrationLab
